import Mathlib

/-!
Verification development for the moltbot-ombogo sync engine
(`src/gateway/sync-direct.ts`).

The container filesystem is modelled as an association list from path to
byte contents, the R2 durable store as an association list from object key
to stored value.  JS strings are modelled by Lean `String`, with the
character-level helpers below standing in for the JS operations
`startsWith`, `endsWith`, `includes` and first-occurrence `replace`.
External failures (R2 put/list throwing, sandbox write failing, the sanity
check process throwing) are supplied by oracles in `R2Env`, so that every
control path of the source is reachable in the model.
-/

namespace MoltbotSync

/-- File contents as a list of bytes. -/
abbrev Bytes := List Nat

/-- A value stored in the R2 bucket: binary file data or a text object
(the timestamp marker is put as a string). -/
inductive R2Value where
  | bin (data : Bytes)
  | txt (s : String)
deriving DecidableEq, Repr

/-- Bytes obtained from `r2Object.arrayBuffer()`. -/
def R2Value.toBytes : R2Value → Bytes
  | .bin d => d
  | .txt s => s.data.map Char.toNat

/-- Text obtained from `obj.text()`. -/
def R2Value.text : R2Value → String
  | .bin d => String.mk (d.map Char.ofNat)
  | .txt s => s

/-- The R2 bucket contents: key ↦ value, insertion-ordered. -/
abbrev Store := List (String × R2Value)

/-- The container filesystem: path ↦ bytes. -/
abbrev FS := List (String × Bytes)

/-- First-match association lookup (models R2 `get` / file lookup). -/
def lookupA {α : Type} : List (String × α) → String → Option α
  | [], _ => none
  | (k, v) :: rest, q => if k = q then some v else lookupA rest q

/-- Overwrite-or-append update (models R2 `put` and a file write). -/
def setA {α : Type} : List (String × α) → String → α → List (String × α)
  | [], k, v => [(k, v)]
  | (k', v') :: rest, k, v =>
      if k' = k then (k, v) :: rest else (k', v') :: setA rest k v

/-- Character-level prefix test (models JS `startsWith` / key `startsWith`). -/
def isPrefixL : List Char → List Char → Bool
  | [], _ => true
  | _ :: _, [] => false
  | a :: as, b :: bs => a = b && isPrefixL as bs

/-- Does `pat` occur as a contiguous sublist of `s`?  (models JS
`String.includes`). -/
def containsSubL (pat : List Char) : List Char → Bool
  | [] => isPrefixL pat []
  | c :: cs => isPrefixL pat (c :: cs) || containsSubL pat cs

/-- Replace the first occurrence of `pat` by `rep` (models JS
`String.replace(pat, rep)` with a string pattern, which replaces only the
first occurrence). -/
def replaceFirstL (pat rep : List Char) : List Char → List Char
  | [] => if isPrefixL pat [] then rep else []
  | c :: cs =>
      if isPrefixL pat (c :: cs) then rep ++ (c :: cs).drop pat.length
      else c :: replaceFirstL pat rep cs

def strStartsWith (s pre : String) : Bool := isPrefixL pre.data s.data

def strEndsWith (s suf : String) : Bool := isPrefixL suf.data.reverse s.data.reverse

def replaceFirst (s pat rep : String) : String :=
  String.mk (replaceFirstL pat.data rep.data s.data)

/-- `const BACKUP_PATHS` of sync-direct.ts. -/
def BACKUP_PATHS : List String := ["/root/.clawdbot/", "/root/clawd/skills/"]

/-- `const EXCLUDE_SUFFIXES` of sync-direct.ts. -/
def EXCLUDE_SUFFIXES : List String := [".lock", ".log", ".tmp"]

/-- `EXCLUDE_SUFFIXES.some(suffix => filePath.endsWith(suffix))`. -/
def isExcluded (p : String) : Bool := EXCLUDE_SUFFIXES.any (fun suf => strEndsWith p suf)

/-- The key computation of `syncToR2Direct` (lines 176-178): first
occurrence of `/root/.clawdbot/` is replaced by `clawdbot/`, then the
first occurrence of `/root/clawd/skills/` by `skills/`. -/
def r2KeyOf (p : String) : String :=
  replaceFirst (replaceFirst p "/root/.clawdbot/" "clawdbot/") "/root/clawd/skills/" "skills/"

/-- The inverse prefix mapping of `restoreFromR2Direct` (lines 250-257):
`clawdbot/` keys go to `/root/.clawdbot/`, `skills/` keys to
`/root/clawd/skills/`; any other key is skipped (`none`). -/
def containerPathOf (key : String) : Option String :=
  if strStartsWith key "clawdbot/" then
    some ("/root/.clawdbot/" ++ String.mk (key.data.drop 9))
  else if strStartsWith key "skills/" then
    some ("/root/clawd/skills/" ++ String.mk (key.data.drop 7))
  else none

/-- Result of `readFileFromContainer`: data plus optional error. -/
structure ReadResult where
  data : Bytes
  error : Option String := none
deriving DecidableEq, Repr

/-- `readFileFromContainer` (lines 30-58): `base64 "$f" || echo FILE_NOT_FOUND`
produces empty trimmed output both for a missing file and for an empty
file, and both fall into the `'File not found'` branch. -/
def readFileFromContainer (fs : FS) (filePath : String) : ReadResult :=
  match lookupA fs filePath with
  | some d => if d = [] then ⟨[], some "File not found"⟩ else ⟨d, none⟩
  | none => ⟨[], some "File not found"⟩

/-- `listFilesInContainer` (lines 63-82): `find "$dir" -type f` lists every
file whose path lies under the directory.  The enumeration order of the
filesystem association list stands in for find-plus-sort output order. -/
def listFilesInContainer (fs : FS) (dirPath : String) : List String :=
  (fs.map Prod.fst).filter (fun p => strStartsWith p dirPath)

/-- The `SyncResult` interface (lines 5-11). -/
structure SyncResult where
  success : Bool
  lastSync : Option String := none
  error : Option String := none
  details : Option String := none
  filesBackedUp : Option Nat := none
deriving DecidableEq, Repr

/-- Failure oracles and ambient data for one call: which R2 puts throw,
which backup roots fail to list even after retries, whether the sanity
check process throws, whether `bucket.list()` throws in restore, which
container writes fail in restore, and the timestamp `new Date().toISOString()`
returns. -/
structure R2Env where
  putFails : String → Bool
  listFails : String → Bool
  checkFails : Bool
  listThrows : Option String
  writeFails : String → Bool
  timestamp : String

/-- `'Durable Object reset'` message classification of `runWithRetry`
(line 99). -/
def isDOReset (msg : String) : Bool :=
  containsSubL "Durable Object reset".data msg.data

/-- The retry loop of `runWithRetry` (lines 87-107): `n` attempts remain,
`attempt` is the 0-based attempt counter, `last` the last error seen.
`fn i` is the outcome of the `i`-th invocation of the wrapped operation. -/
def runWithRetryGo {α : Type} (fn : Nat → Except String α) :
    Nat → Nat → Option String → Except String α
  | 0, _, last => .error (last.getD "")
  | n + 1, attempt, _ =>
      match fn attempt with
      | .ok a => .ok a
      | .error e =>
          if isDOReset e then runWithRetryGo fn n (attempt + 1) (some e)
          else .error e

/-- `runWithRetry` (lines 87-107), default `maxRetries = 5`. -/
def runWithRetry {α : Type} (fn : Nat → Except String α) (maxRetries : Nat := 5) :
    Except String α :=
  runWithRetryGo fn maxRetries 0 none

/-- `getLastSyncDirect` (lines 292-302). -/
def getLastSyncDirect (bucket : Option Store) : Option String :=
  match bucket with
  | none => none
  | some store =>
      match lookupA store ".last-sync" with
      | some v => some v.text
      | none => none

/-- JS truthiness of `string | null` (`if (existingBackup)` at line 134):
`null` and the empty string are falsy. -/
def jsTruthy : Option String → Bool
  | none => false
  | some s => s ≠ ""

/-- Whether the sanity check of `syncToR2Direct` (lines 128-153) aborts
the backup: an existing (truthy) marker, a check process that did not
throw, and `test -f /root/.clawdbot/clawdbot.json` printing no "ok". -/
def sanityAborts (fs : FS) (env : R2Env) (store : Store) : Bool :=
  jsTruthy (getLastSyncDirect (some store)) && !env.checkFails &&
    !(lookupA fs "/root/.clawdbot/clawdbot.json").isSome

/-- Accumulator of the backup loop (lines 155-202): `filesBackedUp`,
`errors` and the evolving bucket contents. -/
structure SyncAcc where
  filesBackedUp : Nat
  errors : List String
  store : Store
deriving DecidableEq, Repr

/-- One iteration of the inner file loop of `syncToR2Direct`
(lines 168-201): skip excluded files, read (an error is recorded and the
file skipped), then upload (a throwing put is recorded as an error). -/
def syncFileStep (fs : FS) (env : R2Env) (acc : SyncAcc) (filePath : String) : SyncAcc :=
  if isExcluded filePath then acc
  else
    let r2Key := r2KeyOf filePath
    let r := readFileFromContainer fs filePath
    match r.error with
    | some e => { acc with errors := acc.errors ++ [filePath ++ ": " ++ e] }
    | none =>
        if env.putFails r2Key then
          { acc with errors := acc.errors ++ [filePath ++ ": Upload failed"] }
        else
          { acc with
              store := setA acc.store r2Key (R2Value.bin r.data),
              filesBackedUp := acc.filesBackedUp + 1 }

/-- One iteration of the outer root loop (lines 159-202): a root whose
listing throws even after retries is skipped entirely. -/
def syncRootStep (fs : FS) (env : R2Env) (acc : SyncAcc) (basePath : String) : SyncAcc :=
  if env.listFails basePath then acc
  else (listFilesInContainer fs basePath).foldl (syncFileStep fs env) acc

/-- The whole backup loop of `syncToR2Direct` (lines 155-202). -/
def syncCore (fs : FS) (env : R2Env) (store : Store) : SyncAcc :=
  BACKUP_PATHS.foldl (syncRootStep fs env) ⟨0, [], store⟩

/-- Lines 204-225 of `syncToR2Direct`: write the timestamp marker
(non-fatal if the put throws), then assemble the result. -/
def syncMain (fs : FS) (env : R2Env) (store : Store) : SyncResult × Store :=
  let acc := syncCore fs env store
  let store' :=
    if env.putFails ".last-sync" then acc.store
    else setA acc.store ".last-sync" (R2Value.txt env.timestamp)
  if acc.filesBackedUp = 0 ∧ acc.errors ≠ [] then
    ({ success := false, error := some "Sync failed",
       details := some (String.intercalate "; " acc.errors) }, store')
  else
    ({ success := true, lastSync := some env.timestamp,
       filesBackedUp := some acc.filesBackedUp,
       details :=
         if acc.errors ≠ [] then
           some (toString acc.errors.length ++ " errors: " ++
                 String.intercalate "; " (acc.errors.take 3))
         else none }, store')

/-- `syncToR2Direct` (lines 119-226). Returns the result together with
the bucket contents after the call.  Every `await` of the source sits
inside a `try`/`catch`, so the translation is a total function. -/
def syncToR2Direct (fs : FS) (env : R2Env) (bucket : Option Store) :
    SyncResult × Option Store :=
  match bucket with
  | none => ({ success := false, error := some "R2 bucket binding not configured" }, none)
  | some store =>
      if sanityAborts fs env store then
        ({ success := false,
           error := some "Sync aborted: source missing clawdbot.json",
           details := some "The local config directory is missing critical files." },
         some store)
      else
        let (res, store') := syncMain fs env store
        (res, some store')

/-- Accumulator of the restore loop (lines 239-280). -/
structure RestoreAcc where
  filesRestored : Nat
  errors : List String
  fs : FS
deriving DecidableEq, Repr

/-- One iteration of the restore loop (lines 245-280): skip the marker
key, skip unknown-prefix keys, `get` the object (absent object: skip),
write it into the container (a throwing write is recorded as a per-object
error). -/
def restoreObjStep (env : R2Env) (store : Store) (acc : RestoreAcc)
    (obj : String × R2Value) : RestoreAcc :=
  if obj.1 = ".last-sync" then acc
  else
    match containerPathOf obj.1 with
    | none => acc
    | some containerPath =>
        match lookupA store obj.1 with
        | none => acc
        | some v =>
            if env.writeFails containerPath then
              { acc with errors := acc.errors ++ [obj.1 ++ ": write failed"] }
            else
              { acc with
                  fs := setA acc.fs containerPath v.toBytes,
                  filesRestored := acc.filesRestored + 1 }

/-- The whole restore loop over `listed.objects` (lines 245-280). -/
def restoreCore (fs : FS) (env : R2Env) (store : Store) : RestoreAcc :=
  store.foldl (restoreObjStep env store) ⟨0, [], fs⟩

/-- `restoreFromR2Direct` (lines 231-287).  The `bucket.list()` call at
line 243 is not inside any `try`, so an exception from it propagates to
the caller; every other fallible operation is caught per object. -/
def restoreFromR2Direct (fs : FS) (env : R2Env) (bucket : Option Store) :
    Except String (SyncResult × FS) :=
  match bucket with
  | none => .ok ({ success := false, error := some "R2 bucket binding not configured" }, fs)
  | some store =>
      match env.listThrows with
      | some e => .error e
      | none =>
          let acc := restoreCore fs env store
          .ok ({ success := decide (0 < acc.filesRestored),
                 filesBackedUp := some acc.filesRestored,
                 details :=
                   if acc.errors ≠ [] then some (toString acc.errors.length ++ " errors")
                   else none }, acc.fs)


/-- Decidable equality for `Except`, needed so that concrete restore
results can be checked by `decide`. -/
instance {e a : Type} [DecidableEq e] [DecidableEq a] : DecidableEq (Except e a) := fun x y =>
  match x, y with
  | .error u, .error w =>
      if h : u = w then isTrue (by rw [h]) else isFalse (fun hh => h (Except.error.inj hh))
  | .ok u, .ok w =>
      if h : u = w then isTrue (by rw [h]) else isFalse (fun hh => h (Except.ok.inj hh))
  | .error _, .ok _ => isFalse (fun hh => Except.noConfusion hh)
  | .ok _, .error _ => isFalse (fun hh => Except.noConfusion hh)

/-- The predicate carving out the paths on which the backup key mapping is
well behaved: the path lies under one of the two backup roots and the
remainder of the path does not accidentally contain the other root's
pattern, so the two first-occurrence replacements of `r2KeyOf` touch only
the leading root prefix. -/
def goodPathB (p : String) : Bool :=
  (strStartsWith p "/root/.clawdbot/" &&
    !containsSubL "/root/clawd/skills/".data ("clawdbot/".data ++ p.data.drop 16))
  || (strStartsWith p "/root/clawd/skills/" &&
      !containsSubL "/root/.clawdbot/".data p.data)

/-- An environment in which no external operation fails. -/
def benign (env : R2Env) : Prop :=
  (∀ k, env.putFails k = false) ∧ (∀ r, env.listFails r = false) ∧
    env.listThrows = none ∧ (∀ p, env.writeFails p = false)

/-- The non-excluded files listed for one backup root (empty when the
root's listing throws). -/
def rootEligible (fs : FS) (env : R2Env) (r : String) : List String :=
  if env.listFails r then []
  else (listFilesInContainer fs r).filter (fun p => !isExcluded p)

/-- All files for which a transfer is attempted by the backup loop, in
processing order. -/
def attemptedFiles (fs : FS) (env : R2Env) : List String :=
  rootEligible fs env "/root/.clawdbot/" ++ rootEligible fs env "/root/clawd/skills/"

/-- The store keys the restore loop acts on: not the freshness marker and
carrying a known prefix. -/
def keepF (k : String) : Bool :=
  !(decide (k = ".last-sync")) && (containerPathOf k).isSome

/-- A fully benign concrete environment used by witnesses and
counterexamples. -/
def benignEnv : R2Env :=
  { putFails := fun _ => false, listFails := fun _ => false, checkFails := false,
    listThrows := none, writeFails := fun _ => false,
    timestamp := "2026-02-06T12:00:00.000Z" }

/-- An environment whose `bucket.list()` call throws. -/
def listThrowEnv : R2Env :=
  { benignEnv with listThrows := some "Network error" }

/-- An environment in which the upload of the key `clawdbot/bad.json`
throws. -/
def putFailEnv : R2Env :=
  { benignEnv with putFails := fun k => k = "clawdbot/bad.json" }

/-- An environment in which writing `/root/.clawdbot/b.json` into the
container fails. -/
def writeFailEnv : R2Env :=
  { benignEnv with writeFails := fun p => p = "/root/.clawdbot/b.json" }

/-- A filesystem holding a single empty file under a backup root. -/
def emptyFileFS : FS := [("/root/.clawdbot/a.json", [])]

/-- A filesystem holding one healthy file and one whose upload fails
under `putFailEnv`. -/
def twoFileFS : FS :=
  [("/root/.clawdbot/clawdbot.json", [1, 2, 3]), ("/root/.clawdbot/bad.json", [4])]

/-- A store used to exercise the restore loop: the marker, an
unknown-prefix key, one restorable object and one whose container write
fails under `writeFailEnv`. -/
def restoreStore : Store :=
  [(".last-sync", R2Value.txt "2026-02-06T12:00:00.000Z"),
   ("unrelated/key", R2Value.bin [9]),
   ("clawdbot/a.json", R2Value.bin [1]),
   ("clawdbot/b.json", R2Value.bin [2])]

/-- A store holding only an excluded-suffix key. -/
def lockStore : Store := [("clawdbot/x.lock", R2Value.bin [1, 2])]

/-- A wrapped operation that fails with the transient reset signature on
its first two attempts and then succeeds. -/
def retryFn0 : Nat → Except String Nat :=
  fun i => if i < 2 then .error "Durable Object reset while starting" else .ok 7

/-- A concrete well-behaved file set for the round-trip witness. -/
def goodFS : FS :=
  [("/root/.clawdbot/clawdbot.json", [1, 2, 3]),
   ("/root/clawd/skills/notes.md", [4, 5])]

/-- A store already holding a freshness marker. -/
def markerStore : Store := [(".last-sync", R2Value.txt "2026-02-06T12:00:00.000Z")]

/-- A filesystem holding only an excluded (lock) file under a backup root. -/
def lockFS : FS := [("/root/.clawdbot/a.lock", [1])]

end MoltbotSync

namespace MoltbotSync

/-! ### Association-list lemmas -/

theorem lookupA_setA_self {α : Type} (l : List (String × α)) (k : String) (v : α) :
    lookupA (setA l k v) k = some v := by
  induction l with
  | nil => simp [setA, lookupA]
  | cons kv rest ih =>
      obtain ⟨a, b⟩ := kv
      by_cases ha : a = k
      · simp [setA, ha, lookupA]
      · simp [setA, ha, lookupA, ih]

theorem lookupA_setA_ne {α : Type} (l : List (String × α)) (k k' : String) (v : α)
    (h : k' ≠ k) : lookupA (setA l k v) k' = lookupA l k' := by
  have hk : ¬ k = k' := fun hh => h hh.symm
  induction l with
  | nil => simp [setA, lookupA, hk]
  | cons kv rest ih =>
      obtain ⟨a, b⟩ := kv
      by_cases ha : a = k
      · subst ha
        simp [setA, lookupA, hk]
      · simp only [setA, if_neg ha, lookupA]
        by_cases hb : a = k' <;> simp [hb, ih]

theorem setA_eq_append {α : Type} (l : List (String × α)) (k : String) (v : α)
    (h : k ∉ l.map Prod.fst) : setA l k v = l ++ [(k, v)] := by
  induction l with
  | nil => simp [setA]
  | cons kv rest ih =>
      obtain ⟨a, b⟩ := kv
      simp only [List.map_cons, List.mem_cons, not_or] at h
      have hak : ¬ a = k := fun hh => h.1 hh.symm
      simp [setA, hak, ih h.2]

theorem lookupA_eq_none {α : Type} (l : List (String × α)) (q : String)
    (h : q ∉ l.map Prod.fst) : lookupA l q = none := by
  induction l with
  | nil => rfl
  | cons kv rest ih =>
      obtain ⟨a, b⟩ := kv
      simp only [List.map_cons, List.mem_cons, not_or] at h
      have haq : ¬ a = q := fun hh => h.1 hh.symm
      simp [lookupA, haq, ih h.2]

theorem lookupA_isSome_of_mem {α : Type} (l : List (String × α)) (k : String) (v : α)
    (h : (k, v) ∈ l) : (lookupA l k).isSome = true := by
  induction l with
  | nil => simp at h
  | cons kv rest ih =>
      obtain ⟨a, b⟩ := kv
      by_cases ha : a = k
      · simp [lookupA, ha]
      · rcases List.mem_cons.mp h with h1 | h1
        · injection h1 with h1a h1b
          exact absurd h1a.symm ha
        · simp [lookupA, ha, ih h1]

theorem lookupA_of_mem_nodup {α : Type} (l : List (String × α)) (k : String) (v : α)
    (hnd : (l.map Prod.fst).Nodup) (h : (k, v) ∈ l) : lookupA l k = some v := by
  induction l with
  | nil => simp at h
  | cons kv rest ih =>
      obtain ⟨a, b⟩ := kv
      simp only [List.map_cons, List.nodup_cons] at hnd
      rcases List.mem_cons.mp h with h1 | h1
      · injection h1 with h1a h1b
        subst h1a; subst h1b
        simp [lookupA]
      · have hak : ¬ a = k := fun hh => hnd.1 (by
          rw [hh]
          exact List.mem_map.mpr ⟨(k, v), h1, rfl⟩)
        simp [lookupA, hak, ih hnd.2 h1]

theorem lookupA_append_of_some {α : Type} (l m : List (String × α)) (q : String) (v : α)
    (h : lookupA l q = some v) : lookupA (l ++ m) q = some v := by
  induction l with
  | nil => simp [lookupA] at h
  | cons kv rest ih =>
      obtain ⟨a, b⟩ := kv
      by_cases ha : a = q
      · simp [lookupA, ha] at h ⊢
        exact h
      · simp [lookupA, ha] at h ⊢
        exact ih h

theorem lookupA_append_of_none {α : Type} (l m : List (String × α)) (q : String)
    (h : lookupA l q = none) : lookupA (l ++ m) q = lookupA m q := by
  induction l with
  | nil => rfl
  | cons kv rest ih =>
      obtain ⟨a, b⟩ := kv
      by_cases ha : a = q
      · simp [lookupA, ha] at h
      · simp [lookupA, ha] at h ⊢
        exact ih h

theorem lookupA_graph (l : List String) (f : String → Bytes) (q : String) :
    lookupA (l.map fun p => (p, f p)) q = if q ∈ l then some (f q) else none := by
  induction l with
  | nil => simp [lookupA]
  | cons p rest ih =>
      by_cases hp : p = q
      · subst hp
        simp [lookupA]
      · simp [lookupA, hp, ih, Ne.symm hp]


/-! ### Character-level string lemmas -/

theorem isPrefixL_append (pre rest : List Char) : isPrefixL pre (pre ++ rest) = true := by
  induction pre with
  | nil => rfl
  | cons a as ih => simp [isPrefixL, ih]

theorem isPrefixL_eq_append (pre s : List Char) (h : isPrefixL pre s = true) :
    s = pre ++ s.drop pre.length := by
  induction pre generalizing s with
  | nil => simp
  | cons a as ih =>
      cases s with
      | nil => simp [isPrefixL] at h
      | cons b bs =>
          simp only [isPrefixL, Bool.and_eq_true, decide_eq_true_eq] at h
          obtain ⟨rfl, h2⟩ := h
          simpa using ih bs h2

theorem isPrefixL_false_of_append (P Q rest : List Char)
    (h1 : isPrefixL P Q = false) (h2 : isPrefixL Q P = false) :
    isPrefixL P (Q ++ rest) = false := by
  induction P generalizing Q with
  | nil => simp [isPrefixL] at h1
  | cons a as ih =>
      cases Q with
      | nil => simp [isPrefixL] at h2
      | cons b bs =>
          simp only [isPrefixL, Bool.and_eq_false_iff, decide_eq_false_iff_not] at h1 h2 ⊢
          by_cases hab : a = b
          · subst hab
            rcases h1 with h1 | h1
            · exact absurd rfl h1
            · rcases h2 with h2 | h2
              · exact absurd rfl h2
              · exact Or.inr (ih bs h1 h2)
          · exact Or.inl hab

theorem isPrefixL_or (A B s : List Char) (hA : isPrefixL A s = true)
    (hB : isPrefixL B s = true) : isPrefixL A B = true ∨ isPrefixL B A = true := by
  induction A generalizing B s with
  | nil => exact Or.inl rfl
  | cons a as ih =>
      cases B with
      | nil => exact Or.inr rfl
      | cons b bs =>
          cases s with
          | nil => simp [isPrefixL] at hA
          | cons c cs =>
              simp only [isPrefixL, Bool.and_eq_true, decide_eq_true_eq] at hA hB ⊢
              obtain ⟨rfl, hA2⟩ := hA
              obtain ⟨rfl, hB2⟩ := hB
              rcases ih bs cs hA2 hB2 with h | h
              · exact Or.inl ⟨rfl, h⟩
              · exact Or.inr ⟨rfl, h⟩

theorem replaceFirstL_of_isPrefix (pat rep rest : List Char) (hne : pat ≠ []) :
    replaceFirstL pat rep (pat ++ rest) = rep ++ rest := by
  cases pat with
  | nil => exact absurd rfl hne
  | cons a as =>
      show replaceFirstL (a :: as) rep (a :: (as ++ rest)) = rep ++ rest
      rw [replaceFirstL]
      rw [show (a :: (as ++ rest)) = (a :: as) ++ rest from rfl]
      rw [isPrefixL_append]
      simp [List.drop_left]

theorem replaceFirstL_of_not_contains (pat rep s : List Char)
    (h : containsSubL pat s = false) : replaceFirstL pat rep s = s := by
  induction s with
  | nil =>
      simp only [containsSubL] at h
      simp [replaceFirstL, h]
  | cons c cs ih =>
      simp only [containsSubL, Bool.or_eq_false_iff] at h
      simp [replaceFirstL, h.1, ih h.2]

theorem strExt (a b : String) (h : a.data = b.data) : a = b := by
  cases a; cases b
  exact congrArg String.mk h

theorem str_data_append (a b : String) : (a ++ b).data = a.data ++ b.data := rfl

theorem ne_of_isPrefixL_data (s t : String) (pre rest : List Char)
    (hs : s.data = pre ++ rest) (ht : isPrefixL pre t.data = false) : s ≠ t := by
  intro h
  rw [h] at hs
  have := isPrefixL_append pre rest
  rw [← hs] at this
  rw [ht] at this
  exact Bool.noConfusion this


/-! ### Key-mapping lemmas -/

theorem r2KeyOf_data (p : String) :
    (r2KeyOf p).data
      = replaceFirstL "/root/clawd/skills/".data "skills/".data
          (replaceFirstL "/root/.clawdbot/".data "clawdbot/".data p.data) := rfl

theorem goodPathB_cases (p : String) (h : goodPathB p = true) :
    (∃ rest, p.data = "/root/.clawdbot/".data ++ rest
       ∧ containsSubL "/root/clawd/skills/".data ("clawdbot/".data ++ rest) = false)
    ∨ (∃ rest, p.data = "/root/clawd/skills/".data ++ rest
       ∧ containsSubL "/root/.clawdbot/".data p.data = false) := by
  simp only [goodPathB, Bool.or_eq_true, Bool.and_eq_true, Bool.not_eq_true',
    strStartsWith] at h
  rcases h with ⟨h1, h2⟩ | ⟨h1, h2⟩
  · left
    refine ⟨p.data.drop 16, ?_, ?_⟩
    · have := isPrefixL_eq_append "/root/.clawdbot/".data p.data h1
      simpa using this
    · exact h2
  · right
    refine ⟨p.data.drop 19, ?_, ?_⟩
    · have := isPrefixL_eq_append "/root/clawd/skills/".data p.data h1
      simpa using this
    · exact h2

theorem r2KeyOf_clawdbot (p : String) (rest : List Char)
    (hp : p.data = "/root/.clawdbot/".data ++ rest)
    (hc : containsSubL "/root/clawd/skills/".data ("clawdbot/".data ++ rest) = false) :
    (r2KeyOf p).data = "clawdbot/".data ++ rest := by
  rw [r2KeyOf_data, hp]
  rw [replaceFirstL_of_isPrefix _ _ _ (by decide)]
  exact replaceFirstL_of_not_contains _ _ _ hc

theorem r2KeyOf_skills (p : String) (rest : List Char)
    (hp : p.data = "/root/clawd/skills/".data ++ rest)
    (hc : containsSubL "/root/.clawdbot/".data p.data = false) :
    (r2KeyOf p).data = "skills/".data ++ rest := by
  rw [r2KeyOf_data, hp]
  rw [← hp, replaceFirstL_of_not_contains _ _ _ hc, hp]
  exact replaceFirstL_of_isPrefix _ _ _ (by decide)

theorem containerPathOf_clawdbot (key : String) (rest : List Char)
    (hk : key.data = "clawdbot/".data ++ rest) :
    containerPathOf key = some (String.mk ("/root/.clawdbot/".data ++ rest)) := by
  have hpre : strStartsWith key "clawdbot/" = true := by
    unfold strStartsWith
    rw [hk]
    exact isPrefixL_append _ _
  unfold containerPathOf
  rw [hpre]
  simp only [if_true]
  congr 1
  apply strExt
  rw [str_data_append, hk]
  rw [show (9 : Nat) = ("clawdbot/".data).length from rfl, List.drop_left]

theorem containerPathOf_skills (key : String) (rest : List Char)
    (hk : key.data = "skills/".data ++ rest) :
    containerPathOf key = some (String.mk ("/root/clawd/skills/".data ++ rest)) := by
  have hpre1 : strStartsWith key "clawdbot/" = false := by
    unfold strStartsWith
    rw [hk]
    exact isPrefixL_false_of_append _ _ _ (by decide) (by decide)
  have hpre2 : strStartsWith key "skills/" = true := by
    unfold strStartsWith
    rw [hk]
    exact isPrefixL_append _ _
  unfold containerPathOf
  rw [hpre1, hpre2]
  simp only [Bool.false_eq_true, if_false, if_true]
  congr 1
  apply strExt
  rw [str_data_append, hk]
  rw [show (7 : Nat) = ("skills/".data).length from rfl, List.drop_left]

/-- On well-behaved paths, the restore prefix mapping inverts the backup
key mapping. -/
theorem containerPathOf_r2KeyOf (p : String) (h : goodPathB p = true) :
    containerPathOf (r2KeyOf p) = some p := by
  rcases goodPathB_cases p h with ⟨rest, hp, hc⟩ | ⟨rest, hp, hc⟩
  · rw [containerPathOf_clawdbot _ rest (r2KeyOf_clawdbot p rest hp hc)]
    congr 1
    exact (strExt _ _ (by rw [hp])).symm
  · rw [containerPathOf_skills _ rest (r2KeyOf_skills p rest hp hc)]
    congr 1
    exact (strExt _ _ (by rw [hp])).symm

/-- On well-behaved paths, the backup key mapping is injective. -/
theorem r2KeyOf_inj (p q : String) (hp : goodPathB p = true) (hq : goodPathB q = true)
    (h : r2KeyOf p = r2KeyOf q) : p = q := by
  have h1 := containerPathOf_r2KeyOf p hp
  have h2 := containerPathOf_r2KeyOf q hq
  rw [h] at h1
  rw [h1] at h2
  exact (Option.some.injEq _ _ ▸ h2)

/-- The key of a well-behaved path is never the freshness-marker key. -/
theorem r2KeyOf_ne_marker (p : String) (h : goodPathB p = true) :
    r2KeyOf p ≠ ".last-sync" := by
  rcases goodPathB_cases p h with ⟨rest, hp, hc⟩ | ⟨rest, hp, hc⟩
  · exact ne_of_isPrefixL_data _ _ _ _ (r2KeyOf_clawdbot p rest hp hc) (by decide)
  · exact ne_of_isPrefixL_data _ _ _ _ (r2KeyOf_skills p rest hp hc) (by decide)

/-- A well-behaved path lies under one of the two backup roots. -/
theorem goodPathB_starts (p : String) (h : goodPathB p = true) :
    strStartsWith p "/root/.clawdbot/" = true ∨ strStartsWith p "/root/clawd/skills/" = true := by
  rcases goodPathB_cases p h with ⟨rest, hp, _⟩ | ⟨rest, hp, _⟩
  · left
    unfold strStartsWith
    rw [hp]
    exact isPrefixL_append _ _
  · right
    unfold strStartsWith
    rw [hp]
    exact isPrefixL_append _ _

/-- No path lies under both backup roots. -/
theorem not_both_roots (p : String) (h1 : strStartsWith p "/root/.clawdbot/" = true)
    (h2 : strStartsWith p "/root/clawd/skills/" = true) : False := by
  unfold strStartsWith at h1 h2
  rcases isPrefixL_or _ _ _ h1 h2 with h | h
  · exact Bool.noConfusion ((by decide : isPrefixL "/root/.clawdbot/".data "/root/clawd/skills/".data = false) ▸ h)
  · exact Bool.noConfusion ((by decide : isPrefixL "/root/clawd/skills/".data "/root/.clawdbot/".data = false) ▸ h)


/-! ### Backup-loop lemmas -/

theorem syncFileStep_count (fs : FS) (env : R2Env) (acc : SyncAcc) (p : String) :
    (syncFileStep fs env acc p).filesBackedUp + (syncFileStep fs env acc p).errors.length
      = acc.filesBackedUp + acc.errors.length + (if isExcluded p then 0 else 1) := by
  unfold syncFileStep
  by_cases hx : isExcluded p
  · simp [hx]
  · cases hr : (readFileFromContainer fs p).error with
    | some e =>
        simp [hx, hr]
        omega
    | none =>
        by_cases hput : env.putFails (r2KeyOf p) <;> simp [hx, hr, hput] <;> omega

theorem foldl_syncFileStep_count (fs : FS) (env : R2Env) (l : List String) :
    ∀ acc : SyncAcc,
      (l.foldl (syncFileStep fs env) acc).filesBackedUp
          + (l.foldl (syncFileStep fs env) acc).errors.length
        = acc.filesBackedUp + acc.errors.length
          + (l.filter (fun p => !isExcluded p)).length := by
  induction l with
  | nil => intro acc; simp
  | cons p rest ih =>
      intro acc
      simp only [List.foldl_cons]
      rw [ih, syncFileStep_count]
      by_cases hx : isExcluded p
      · simp [List.filter_cons, hx]
      · simp [List.filter_cons, hx]
        omega

theorem syncRootStep_count (fs : FS) (env : R2Env) (acc : SyncAcc) (r : String) :
    (syncRootStep fs env acc r).filesBackedUp + (syncRootStep fs env acc r).errors.length
      = acc.filesBackedUp + acc.errors.length + (rootEligible fs env r).length := by
  unfold syncRootStep rootEligible
  by_cases hf : env.listFails r
  · simp [hf]
  · simp only [hf, Bool.false_eq_true, if_false]
    exact foldl_syncFileStep_count fs env _ acc

theorem syncCore_count (fs : FS) (env : R2Env) (store : Store) :
    (syncCore fs env store).filesBackedUp + (syncCore fs env store).errors.length
      = (attemptedFiles fs env).length := by
  unfold syncCore BACKUP_PATHS attemptedFiles
  simp only [List.foldl_cons, List.foldl_nil]
  rw [syncRootStep_count, syncRootStep_count]
  simp [List.length_append]

theorem syncFileStep_store (fs : FS) (env : R2Env) (acc : SyncAcc) (p k : String)
    (v : R2Value) (h : lookupA (syncFileStep fs env acc p).store k = some v) :
    lookupA acc.store k = some v ∨ (isExcluded p = false ∧ r2KeyOf p = k) := by
  unfold syncFileStep at h
  by_cases hx : isExcluded p
  · simp [hx] at h
    exact Or.inl h
  · cases hr : (readFileFromContainer fs p).error with
    | some e =>
        simp [hx, hr] at h
        exact Or.inl h
    | none =>
        by_cases hput : env.putFails (r2KeyOf p)
        · simp [hx, hr, hput] at h
          exact Or.inl h
        · simp only [hx, Bool.false_eq_true, if_false, hr, hput] at h
          by_cases hk : k = r2KeyOf p
          · exact Or.inr ⟨Bool.eq_false_iff.mpr hx, hk.symm⟩
          · rw [lookupA_setA_ne _ _ _ _ hk] at h
            exact Or.inl h

theorem foldl_syncFileStep_store (fs : FS) (env : R2Env) (l : List String) :
    ∀ (acc : SyncAcc) (k : String) (v : R2Value),
      lookupA ((l.foldl (syncFileStep fs env) acc)).store k = some v →
      lookupA acc.store k = some v
        ∨ ∃ p, p ∈ l ∧ isExcluded p = false ∧ r2KeyOf p = k := by
  induction l with
  | nil =>
      intro acc k v h
      exact Or.inl h
  | cons p rest ih =>
      intro acc k v h
      simp only [List.foldl_cons] at h
      rcases ih _ k v h with h1 | ⟨q, hq, hqx, hqk⟩
      · rcases syncFileStep_store fs env acc p k v h1 with h2 | ⟨hx, hk⟩
        · exact Or.inl h2
        · exact Or.inr ⟨p, List.mem_cons_self .., hx, hk⟩
      · exact Or.inr ⟨q, List.mem_cons_of_mem _ hq, hqx, hqk⟩

theorem syncRootStep_store (fs : FS) (env : R2Env) (acc : SyncAcc) (r k : String)
    (v : R2Value) (h : lookupA (syncRootStep fs env acc r).store k = some v) :
    lookupA acc.store k = some v ∨ ∃ p, p ∈ rootEligible fs env r ∧ r2KeyOf p = k := by
  unfold syncRootStep at h
  by_cases hf : env.listFails r
  · simp [hf] at h
    exact Or.inl h
  · simp only [hf, Bool.false_eq_true, if_false] at h
    rcases foldl_syncFileStep_store fs env _ acc k v h with h1 | ⟨p, hp, hpx, hpk⟩
    · exact Or.inl h1
    · refine Or.inr ⟨p, ?_, hpk⟩
      unfold rootEligible
      simp only [hf, Bool.false_eq_true, if_false]
      exact List.mem_filter.mpr ⟨hp, by simp [hpx]⟩

theorem syncCore_store (fs : FS) (env : R2Env) (store : Store) (k : String) (v : R2Value)
    (h : lookupA (syncCore fs env store).store k = some v) :
    lookupA store k = some v ∨ ∃ p, p ∈ attemptedFiles fs env ∧ r2KeyOf p = k := by
  unfold syncCore BACKUP_PATHS at h
  simp only [List.foldl_cons, List.foldl_nil] at h
  rcases syncRootStep_store fs env _ _ k v h with h1 | ⟨p, hp, hpk⟩
  · rcases syncRootStep_store fs env _ _ k v h1 with h2 | ⟨p, hp, hpk⟩
    · exact Or.inl h2
    · exact Or.inr ⟨p, by unfold attemptedFiles; exact List.mem_append_left _ hp, hpk⟩
  · exact Or.inr ⟨p, by unfold attemptedFiles; exact List.mem_append_right _ hp, hpk⟩

theorem syncFileStep_errors_mono (fs : FS) (env : R2Env) (acc : SyncAcc) (p msg : String)
    (h : msg ∈ acc.errors) : msg ∈ (syncFileStep fs env acc p).errors := by
  unfold syncFileStep
  by_cases hx : isExcluded p
  · simpa [hx] using h
  · cases hr : (readFileFromContainer fs p).error with
    | some e => simp [hx, hr, List.mem_append, h]
    | none =>
        by_cases hput : env.putFails (r2KeyOf p) <;>
          simp [hx, hr, hput, List.mem_append, h]

theorem foldl_syncFileStep_errors_mono (fs : FS) (env : R2Env) (l : List String) :
    ∀ (acc : SyncAcc) (msg : String), msg ∈ acc.errors →
      msg ∈ (l.foldl (syncFileStep fs env) acc).errors := by
  induction l with
  | nil => intro acc msg h; exact h
  | cons p rest ih =>
      intro acc msg h
      simp only [List.foldl_cons]
      exact ih _ msg (syncFileStep_errors_mono fs env acc p msg h)

theorem foldl_syncFileStep_error_added (fs : FS) (env : R2Env) (l : List String) :
    ∀ (acc : SyncAcc) (p : String), p ∈ l → isExcluded p = false →
      (readFileFromContainer fs p).error = some "File not found" →
      (p ++ ": " ++ "File not found") ∈ (l.foldl (syncFileStep fs env) acc).errors := by
  induction l with
  | nil => intro acc p h; simp at h
  | cons q rest ih =>
      intro acc p hp hx hr
      simp only [List.foldl_cons]
      rcases List.mem_cons.mp hp with rfl | hp'
      · apply foldl_syncFileStep_errors_mono
        unfold syncFileStep
        simp [hx, hr, List.mem_append]
      · exact ih _ p hp' hx hr

theorem syncRootStep_errors_mono (fs : FS) (env : R2Env) (acc : SyncAcc) (r msg : String)
    (h : msg ∈ acc.errors) : msg ∈ (syncRootStep fs env acc r).errors := by
  unfold syncRootStep
  by_cases hf : env.listFails r
  · simpa [hf] using h
  · simp only [hf, Bool.false_eq_true, if_false]
    exact foldl_syncFileStep_errors_mono fs env _ acc msg h

theorem syncCore_error_added (fs : FS) (env : R2Env) (store : Store) (p : String)
    (hp : p ∈ attemptedFiles fs env)
    (hr : (readFileFromContainer fs p).error = some "File not found") :
    (p ++ ": " ++ "File not found") ∈ (syncCore fs env store).errors := by
  unfold attemptedFiles at hp
  unfold syncCore BACKUP_PATHS
  simp only [List.foldl_cons, List.foldl_nil]
  rcases List.mem_append.mp hp with hp1 | hp2
  · have h1 := hp1
    unfold rootEligible at h1
    by_cases hf : env.listFails "/root/.clawdbot/"
    · simp [hf] at h1
    · simp only [hf, Bool.false_eq_true, if_false] at h1
      have hmem := List.mem_filter.mp h1
      have hx : isExcluded p = false := by
        have := hmem.2
        simpa using this
      apply syncRootStep_errors_mono
      unfold syncRootStep
      simp only [hf, Bool.false_eq_true, if_false]
      exact foldl_syncFileStep_error_added fs env _ _ p hmem.1 hx hr
  · have h1 := hp2
    unfold rootEligible at h1
    by_cases hf : env.listFails "/root/clawd/skills/"
    · simp [hf] at h1
    · simp only [hf, Bool.false_eq_true, if_false] at h1
      have hmem := List.mem_filter.mp h1
      have hx : isExcluded p = false := by
        have := hmem.2
        simpa using this
      unfold syncRootStep
      simp only [hf, Bool.false_eq_true, if_false]
      exact foldl_syncFileStep_error_added fs env _ _ p hmem.1 hx hr


theorem foldl_syncFileStep_good (fs : FS) (env : R2Env) (l : List String) :
    ∀ acc : SyncAcc,
      (∀ p ∈ l, ∃ d, lookupA fs p = some d ∧ d ≠ [] ∧ isExcluded p = false
        ∧ env.putFails (r2KeyOf p) = false) →
      (∀ p ∈ l, r2KeyOf p ∉ acc.store.map Prod.fst) →
      l.Pairwise (fun p q => r2KeyOf p ≠ r2KeyOf q) →
      l.foldl (syncFileStep fs env) acc
        = ⟨acc.filesBackedUp + l.length, acc.errors,
           acc.store ++ l.map (fun p => (r2KeyOf p, R2Value.bin ((lookupA fs p).getD [])))⟩ := by
  induction l with
  | nil =>
      intro acc _ _ _
      cases acc
      simp
  | cons p rest ih =>
      intro acc hall hfresh hpw
      obtain ⟨d, hd, hne, hx, hput⟩ := hall p (List.mem_cons_self ..)
      have hstep : syncFileStep fs env acc p
          = ⟨acc.filesBackedUp + 1, acc.errors, acc.store ++ [(r2KeyOf p, R2Value.bin d)]⟩ := by
        unfold syncFileStep readFileFromContainer
        rw [hd]
        simp only [hx, Bool.false_eq_true, if_false, hne, hput]
        rw [setA_eq_append _ _ _ (hfresh p (List.mem_cons_self ..))]
      rw [List.foldl_cons, hstep]
      rw [List.pairwise_cons] at hpw
      rw [ih _ (fun q hq => hall q (List.mem_cons_of_mem _ hq))
            (by
              intro q hq
              simp only [List.map_append, List.mem_append, List.map_cons, List.map_nil,
                List.mem_singleton, not_or]
              exact ⟨hfresh q (List.mem_cons_of_mem _ hq), fun hh => hpw.1 q hq hh.symm⟩)
            hpw.2]
      simp only [SyncAcc.mk.injEq, List.length_cons, List.append_assoc, List.map_cons,
        List.singleton_append, hd, Option.getD_some]
      exact ⟨by omega, trivial, trivial⟩

theorem syncFileStep_storeK (fs : FS) (env : R2Env) (acc : SyncAcc) (p K : String)
    (h : isExcluded p = true ∨ (readFileFromContainer fs p).error.isSome = true
      ∨ r2KeyOf p ≠ K) :
    lookupA (syncFileStep fs env acc p).store K = lookupA acc.store K := by
  unfold syncFileStep
  by_cases hx : isExcluded p
  · simp [hx]
  · cases hr : (readFileFromContainer fs p).error with
    | some e => simp [hx, hr]
    | none =>
        have hk : r2KeyOf p ≠ K := by
          rcases h with h | h | h
          · exact absurd h hx
          · rw [hr] at h
            simp at h
          · exact h
        by_cases hput : env.putFails (r2KeyOf p)
        · simp [hx, hr, hput]
        · simp only [hx, Bool.false_eq_true, if_false, hr, hput]
          exact lookupA_setA_ne _ _ _ _ (fun hh => hk hh.symm)

theorem foldl_syncFileStep_storeK (fs : FS) (env : R2Env) (K : String) (l : List String) :
    ∀ acc : SyncAcc,
      (∀ q ∈ l, isExcluded q = true ∨ (readFileFromContainer fs q).error.isSome = true
        ∨ r2KeyOf q ≠ K) →
      lookupA ((l.foldl (syncFileStep fs env) acc)).store K = lookupA acc.store K := by
  induction l with
  | nil => intro acc _; rfl
  | cons p rest ih =>
      intro acc hall
      simp only [List.foldl_cons]
      rw [ih _ (fun q hq => hall q (List.mem_cons_of_mem _ hq))]
      exact syncFileStep_storeK fs env acc p K (hall p (List.mem_cons_self ..))

theorem syncCore_storeK (fs : FS) (env : R2Env) (store : Store) (K : String)
    (hall : ∀ q, q ∈ attemptedFiles fs env →
      (readFileFromContainer fs q).error.isSome = true ∨ r2KeyOf q ≠ K) :
    lookupA (syncCore fs env store).store K = lookupA store K := by
  unfold syncCore BACKUP_PATHS
  simp only [List.foldl_cons, List.foldl_nil]
  have hroot : ∀ (r : String) (acc : SyncAcc),
      (∀ q, q ∈ rootEligible fs env r →
        (readFileFromContainer fs q).error.isSome = true ∨ r2KeyOf q ≠ K) →
      lookupA (syncRootStep fs env acc r).store K = lookupA acc.store K := by
    intro r acc hr
    unfold syncRootStep
    by_cases hf : env.listFails r
    · simp [hf]
    · simp only [hf, Bool.false_eq_true, if_false]
      apply foldl_syncFileStep_storeK
      intro q hq
      by_cases hx : isExcluded q
      · exact Or.inl hx
      · have hmem : q ∈ rootEligible fs env r := by
          unfold rootEligible
          simp only [hf, Bool.false_eq_true, if_false]
          exact List.mem_filter.mpr ⟨hq, by simp [hx]⟩
        exact Or.inr (hr q hmem)
  rw [hroot _ _ (fun q hq => hall q (by
        unfold attemptedFiles
        exact List.mem_append_right _ hq))]
  exact hroot _ _ (fun q hq => hall q (by
        unfold attemptedFiles
        exact List.mem_append_left _ hq))


/-! ### Restore-loop lemmas -/

theorem restoreObjStep_skip (env : R2Env) (S : Store) (acc : RestoreAcc)
    (obj : String × R2Value) (h : keepF obj.1 = false) :
    restoreObjStep env S acc obj = acc := by
  unfold restoreObjStep
  by_cases hm : obj.1 = ".last-sync"
  · simp [hm]
  · simp only [hm, if_false]
    cases hc : containerPathOf obj.1 with
    | none => rfl
    | some path =>
        exfalso
        unfold keepF at h
        rw [hc] at h
        simp [hm] at h

theorem restoreObjStep_congr (env : R2Env) (S S' : Store) (acc : RestoreAcc)
    (obj : String × R2Value) (h : lookupA S' obj.1 = lookupA S obj.1) :
    restoreObjStep env S' acc obj = restoreObjStep env S acc obj := by
  unfold restoreObjStep
  rw [h]

theorem lookupA_filter_keep {α : Type} (l : List (String × α)) (k : String)
    (hk : keepF k = true) :
    lookupA (l.filter (fun kv => keepF kv.1)) k = lookupA l k := by
  induction l with
  | nil => rfl
  | cons kv rest ih =>
      obtain ⟨a, b⟩ := kv
      by_cases ha : keepF a
      · rw [List.filter_cons_of_pos (by simpa using ha)]
        by_cases hak : a = k
        · simp [lookupA, hak]
        · simp [lookupA, hak, ih]
      · rw [List.filter_cons_of_neg (by simpa using ha)]
        have hak : ¬ a = k := fun hh => ha (hh ▸ hk)
        simp [lookupA, hak, ih]

theorem restore_fold_filter (env : R2Env) (S : Store) (l : List (String × R2Value)) :
    ∀ acc : RestoreAcc,
      (l.filter (fun kv => keepF kv.1)).foldl
          (restoreObjStep env (S.filter (fun kv => keepF kv.1))) acc
        = l.foldl (restoreObjStep env S) acc := by
  induction l with
  | nil => intro acc; rfl
  | cons kv rest ih =>
      intro acc
      by_cases hk : keepF kv.1
      · rw [List.filter_cons_of_pos (by simpa using hk), List.foldl_cons, List.foldl_cons]
        rw [restoreObjStep_congr env S _ acc kv (lookupA_filter_keep _ _ hk)]
        exact ih _
      · rw [List.filter_cons_of_neg (by simpa using hk), List.foldl_cons]
        rw [restoreObjStep_skip env S acc kv (Bool.eq_false_iff.mpr hk)]
        exact ih _

/-- The restore loop ignores the freshness-marker object and every
unknown-prefix object: filtering them out of the store changes nothing. -/
theorem restoreCore_filter (fs : FS) (env : R2Env) (store : Store) :
    restoreCore fs env (store.filter (fun kv => keepF kv.1)) = restoreCore fs env store := by
  unfold restoreCore
  exact restore_fold_filter env store store ⟨0, [], fs⟩

theorem restoreObjStep_count (env : R2Env) (S : Store) (acc : RestoreAcc)
    (obj : String × R2Value) (hs : (lookupA S obj.1).isSome = true) :
    (restoreObjStep env S acc obj).filesRestored
        + (restoreObjStep env S acc obj).errors.length
      = acc.filesRestored + acc.errors.length + (if keepF obj.1 then 1 else 0) := by
  unfold restoreObjStep keepF
  by_cases hm : obj.1 = ".last-sync"
  · simp [hm]
  · simp only [hm, if_false, decide_eq_true_eq]
    cases hc : containerPathOf obj.1 with
    | none => simp [hm, hc]
    | some path =>
        cases hv : lookupA S obj.1 with
        | none => rw [hv] at hs; simp at hs
        | some v =>
            by_cases hw : env.writeFails path <;> simp [hm, hc, hw] <;> omega

theorem restore_fold_count (env : R2Env) (S : Store) (l : List (String × R2Value)) :
    ∀ acc : RestoreAcc, (∀ kv ∈ l, (lookupA S kv.1).isSome = true) →
      (l.foldl (restoreObjStep env S) acc).filesRestored
          + (l.foldl (restoreObjStep env S) acc).errors.length
        = acc.filesRestored + acc.errors.length
          + (l.filter (fun kv => keepF kv.1)).length := by
  induction l with
  | nil => intro acc _; simp
  | cons kv rest ih =>
      intro acc hall
      simp only [List.foldl_cons]
      rw [ih _ (fun q hq => hall q (List.mem_cons_of_mem _ hq))]
      rw [restoreObjStep_count env S acc kv (hall kv (List.mem_cons_self ..))]
      by_cases hk : keepF kv.1
      · simp [List.filter_cons, hk]
        omega
      · simp [List.filter_cons, hk]

/-- Every store object that survives the marker/unknown-prefix filter
contributes exactly one outcome (a restored file or a recorded error). -/
theorem restoreCore_count (fs : FS) (env : R2Env) (store : Store) :
    (restoreCore fs env store).filesRestored + (restoreCore fs env store).errors.length
      = (store.filter (fun kv => keepF kv.1)).length := by
  unfold restoreCore
  rw [restore_fold_count env store store ⟨0, [], fs⟩
    (fun kv hk => lookupA_isSome_of_mem store kv.1 kv.2 hk)]
  simp

theorem restore_fold_good (env : R2Env) (S : Store) (l : List (String × R2Value)) :
    ∀ (acc : RestoreAcc) (f : String → String),
      (∀ kv ∈ l, kv.1 ≠ ".last-sync" ∧ containerPathOf kv.1 = some (f kv.1)
        ∧ lookupA S kv.1 = some kv.2 ∧ env.writeFails (f kv.1) = false
        ∧ f kv.1 ∉ acc.fs.map Prod.fst) →
      l.Pairwise (fun kv kv' => f kv.1 ≠ f kv'.1) →
      l.foldl (restoreObjStep env S) acc
        = ⟨acc.filesRestored + l.length, acc.errors,
           acc.fs ++ l.map (fun kv => (f kv.1, kv.2.toBytes))⟩ := by
  induction l with
  | nil =>
      intro acc f _ _
      cases acc
      simp
  | cons kv rest ih =>
      intro acc f hall hpw
      obtain ⟨hm, hc, hv, hw, hfresh⟩ := hall kv (List.mem_cons_self ..)
      have hstep : restoreObjStep env S acc kv
          = ⟨acc.filesRestored + 1, acc.errors, acc.fs ++ [(f kv.1, kv.2.toBytes)]⟩ := by
        unfold restoreObjStep
        simp only [hm, if_false, hc, hv, hw, Bool.false_eq_true]
        rw [setA_eq_append _ _ _ hfresh]
      rw [List.foldl_cons, hstep]
      rw [List.pairwise_cons] at hpw
      rw [ih _ f (by
            intro q hq
            obtain ⟨h1, h2, h3, h4, h5⟩ := hall q (List.mem_cons_of_mem _ hq)
            refine ⟨h1, h2, h3, h4, ?_⟩
            simp only [List.map_append, List.mem_append, List.map_cons, List.map_nil,
              List.mem_singleton, not_or]
            exact ⟨h5, fun hh => hpw.1 q hq hh.symm⟩)
          hpw.2]
      simp only [RestoreAcc.mk.injEq, List.length_cons, List.append_assoc, List.map_cons,
        List.singleton_append]
      exact ⟨by omega, trivial, trivial⟩


/-! ### Retry-wrapper lemmas -/

theorem runWithRetryGo_ok {α : Type} (fn : Nat → Except String α) :
    ∀ (k n att : Nat) (last : Option String) (v : α), k < n →
      (∀ i, i < k → ∃ e, fn (att + i) = .error e ∧ isDOReset e = true) →
      fn (att + k) = .ok v →
      runWithRetryGo fn n att last = .ok v := by
  intro k
  induction k with
  | zero =>
      intro n att last v hn hprev hk
      cases n with
      | zero => omega
      | succ m =>
          rw [Nat.add_zero] at hk
          simp only [runWithRetryGo, hk]
  | succ k ih =>
      intro n att last v hn hprev hk
      cases n with
      | zero => omega
      | succ m =>
          obtain ⟨e, he, hd⟩ := hprev 0 (Nat.succ_pos k)
          rw [Nat.add_zero] at he
          simp only [runWithRetryGo, he, hd, if_true]
          apply ih m (att + 1) (some e) v (by omega)
          · intro i hi
            have := hprev (i + 1) (by omega)
            rwa [show att + (i + 1) = att + 1 + i by omega] at this
          · rwa [show att + 1 + k = att + (k + 1) by omega]

theorem runWithRetryGo_fatal {α : Type} (fn : Nat → Except String α) :
    ∀ (k n att : Nat) (last : Option String) (e : String), k < n →
      (∀ i, i < k → ∃ e', fn (att + i) = .error e' ∧ isDOReset e' = true) →
      fn (att + k) = .error e → isDOReset e = false →
      runWithRetryGo fn n att last = .error e := by
  intro k
  induction k with
  | zero =>
      intro n att last e hn hprev hk hd
      cases n with
      | zero => omega
      | succ m =>
          rw [Nat.add_zero] at hk
          simp only [runWithRetryGo, hk, hd, Bool.false_eq_true, if_false]
  | succ k ih =>
      intro n att last e hn hprev hk hd
      cases n with
      | zero => omega
      | succ m =>
          obtain ⟨e0, he0, hd0⟩ := hprev 0 (Nat.succ_pos k)
          rw [Nat.add_zero] at he0
          simp only [runWithRetryGo, he0, hd0, if_true]
          apply ih m (att + 1) (some e0) e (by omega)
          · intro i hi
            have := hprev (i + 1) (by omega)
            rwa [show att + (i + 1) = att + 1 + i by omega] at this
          · rwa [show att + 1 + k = att + (k + 1) by omega]
          · exact hd

theorem runWithRetryGo_exhaust {α : Type} (fn : Nat → Except String α) :
    ∀ (n att : Nat) (last : Option String), 0 < n →
      (∀ i, i < n → ∃ e, fn (att + i) = .error e ∧ isDOReset e = true) →
      ∃ e, fn (att + (n - 1)) = .error e ∧ runWithRetryGo fn n att last = .error e := by
  intro n
  induction n with
  | zero => intro att last h; omega
  | succ m ih =>
      intro att last _ hall
      obtain ⟨e0, he0, hd0⟩ := hall 0 (Nat.succ_pos m)
      rw [Nat.add_zero] at he0
      cases m with
      | zero =>
          refine ⟨e0, by simpa using he0, ?_⟩
          simp only [runWithRetryGo, he0, hd0, if_true]
          rfl
      | succ m' =>
          obtain ⟨e, he, hgo⟩ := ih (att + 1) (some e0) (Nat.succ_pos m') (fun i hi => by
            have := hall (i + 1) (by omega)
            rwa [show att + (i + 1) = att + 1 + i by omega] at this)
          refine ⟨e, ?_, ?_⟩
          · rwa [show att + (m' + 1 + 1 - 1) = att + 1 + (m' + 1 - 1) by omega]
          · simp only [runWithRetryGo, he0, hd0, if_true]
            exact hgo


/-! ### Top-level backup lemmas -/

theorem syncToR2Direct_not_abort (fs : FS) (env : R2Env) (store : Store)
    (h : sanityAborts fs env store = false) :
    syncToR2Direct fs env (some store)
      = ((syncMain fs env store).1, some (syncMain fs env store).2) := by
  have h0 : syncToR2Direct fs env (some store)
      = (if sanityAborts fs env store = true then
          ({ success := false, error := some "Sync aborted: source missing clawdbot.json",
             details := some "The local config directory is missing critical files." },
           some store)
         else ((syncMain fs env store).1, some (syncMain fs env store).2)) := rfl
  rw [h0, h]
  simp

theorem syncMain_snd (fs : FS) (env : R2Env) (store : Store) :
    (syncMain fs env store).2
      = (if env.putFails ".last-sync" then (syncCore fs env store).store
         else setA (syncCore fs env store).store ".last-sync" (R2Value.txt env.timestamp)) := by
  unfold syncMain
  by_cases hc : (syncCore fs env store).filesBackedUp = 0 ∧ (syncCore fs env store).errors ≠ [] <;>
    simp [hc]

theorem syncMain_success_iff (fs : FS) (env : R2Env) (store : Store) :
    (syncMain fs env store).1.success = true
      ↔ ¬((syncCore fs env store).filesBackedUp = 0
          ∧ (syncCore fs env store).errors ≠ []) := by
  unfold syncMain
  by_cases hc : (syncCore fs env store).filesBackedUp = 0 ∧ (syncCore fs env store).errors ≠ [] <;>
    simp [hc]

theorem attemptedFiles_not_excluded (fs : FS) (env : R2Env) (p : String)
    (h : p ∈ attemptedFiles fs env) : isExcluded p = false := by
  unfold attemptedFiles rootEligible at h
  rcases List.mem_append.mp h with h1 | h1 <;>
  · split at h1
    · simp at h1
    · have := (List.mem_filter.mp h1).2
      simpa using this


/-! ### Claim theorems -/

/-- C6: an operation failing with the transient Durable-Object-reset
signature on attempts 1..k-1 (k at most 5) and succeeding on attempt k
makes `runWithRetry` return the success value; an operation failing with a
non-transient signature is rethrown immediately on the first such failure,
independently of the behaviour of any later attempt; if all 5 attempts
fail transiently, the last error is rethrown to the caller. -/
theorem retry_wrapper_policy {α : Type} (fn : Nat → Except String α) :
    (∀ (k : Nat) (v : α), 1 ≤ k → k ≤ 5 →
       (∀ i, i < k - 1 → ∃ e, fn i = .error e ∧ isDOReset e = true) →
       fn (k - 1) = .ok v → runWithRetry fn = .ok v)
    ∧ (∀ (j : Nat) (e : String), j < 5 →
         (∀ i, i < j → ∃ e', fn i = .error e' ∧ isDOReset e' = true) →
         fn j = .error e → isDOReset e = false →
         ∀ gn : Nat → Except String α, (∀ i, i ≤ j → gn i = fn i) →
           runWithRetry gn = .error e)
    ∧ ((∀ i, i < 5 → ∃ e, fn i = .error e ∧ isDOReset e = true) →
         ∃ e, fn 4 = .error e ∧ runWithRetry fn = .error e) := by
  refine ⟨?_, ?_, ?_⟩
  · intro k v h1 h5 hprev hk
    unfold runWithRetry
    apply runWithRetryGo_ok fn (k - 1) 5 0 none v (by omega)
    · intro i hi
      simpa using hprev i hi
    · simpa using hk
  · intro j e hj hprev hj2 hd gn hagree
    unfold runWithRetry
    apply runWithRetryGo_fatal gn j 5 0 none e hj
    · intro i hi
      obtain ⟨e', he', hde⟩ := hprev i hi
      refine ⟨e', ?_, hde⟩
      rw [Nat.zero_add, hagree i (by omega)]
      exact he'
    · rw [Nat.zero_add, hagree j (Nat.le_refl j)]
      exact hj2
    · exact hd
  · intro hall
    unfold runWithRetry
    have := runWithRetryGo_exhaust fn 5 0 none (by omega)
      (fun i hi => by simpa using hall i hi)
    simpa using this

/-- Witness for C6: a concrete operation that resets transiently on its
first two attempts and succeeds on the third is retried to success. -/
theorem retry_wrapper_policy_witness : runWithRetry retryFn0 = .ok 7 := by
  apply (retry_wrapper_policy retryFn0).1 3 7 (by omega) (by omega)
  · intro i hi
    refine ⟨"Durable Object reset while starting", ?_, by decide⟩
    interval_cases i <;> rfl
  · rfl

/-- C2 counterexample: an exception thrown by the store listing call
propagates out of `restoreFromR2Direct` (the `bucket.list()` call at line
243 of sync-direct.ts sits outside every try/catch), so the entry point
does not always return a structured result. -/
theorem restore_throws_counterexample :
    restoreFromR2Direct [] listThrowEnv (some []) = .error "Network error" := rfl

/-- C2 (amended): `syncToR2Direct` always returns a structured result, and
with the bucket binding absent both entry points return the explicit
not-configured failure while touching nothing (the result is a constant
and the filesystem is handed back unchanged); `restoreFromR2Direct` returns
a structured result whenever its store listing call does not throw. -/
theorem structured_result_policy (fs : FS) (env : R2Env) :
    (syncToR2Direct fs env none
       = ({ success := false, error := some "R2 bucket binding not configured" }, none))
    ∧ (restoreFromR2Direct fs env none
       = .ok ({ success := false, error := some "R2 bucket binding not configured" }, fs))
    ∧ (∀ store : Store, env.listThrows = none →
         ∃ res fs', restoreFromR2Direct fs env (some store) = .ok (res, fs')) := by
  refine ⟨rfl, rfl, ?_⟩
  intro store h
  unfold restoreFromR2Direct
  rw [h]
  exact ⟨_, _, rfl⟩

/-- Witness for C2 (amended), at a concrete filesystem, environment and
store whose listing does not throw. -/
theorem structured_result_policy_witness :
    ∃ res fs', restoreFromR2Direct [] benignEnv (some restoreStore) = .ok (res, fs') :=
  (structured_result_policy [] benignEnv).2.2 restoreStore rfl

/-- C3 counterexample: a backup whose every attempted transfer fails (here
a single zero-byte file, reported as File-not-found) returns
success = false and still writes the freshness marker — the marker put at
line 207 of sync-direct.ts is unconditional. -/
theorem marker_on_failure_counterexample :
    (syncToR2Direct emptyFileFS benignEnv (some [])).1.success = false
    ∧ lookupA ((syncToR2Direct emptyFileFS benignEnv (some [])).2.getD []) ".last-sync"
        = some (R2Value.txt "2026-02-06T12:00:00.000Z") := by decide

/-- C3 (amended): the freshness marker is written with the current
timestamp after every backup attempt that passes the configuration and
sanity checks and whose own marker put does not throw — regardless of
whether the backup succeeded, so marker presence records a completed
attempt, not a successful one. -/
theorem marker_written_after_attempt (fs : FS) (env : R2Env) (store : Store)
    (hab : sanityAborts fs env store = false)
    (hput : env.putFails ".last-sync" = false) :
    ∃ store', (syncToR2Direct fs env (some store)).2 = some store'
      ∧ lookupA store' ".last-sync" = some (R2Value.txt env.timestamp) := by
  rw [syncToR2Direct_not_abort fs env store hab]
  refine ⟨(syncMain fs env store).2, rfl, ?_⟩
  rw [syncMain_snd, hput]
  simp only [Bool.false_eq_true, if_false]
  exact lookupA_setA_self _ _ _

/-- Witness for C3 (amended) at a concrete successful backup. -/
theorem marker_written_after_attempt_witness :
    ∃ store', (syncToR2Direct goodFS benignEnv (some [])).2 = some store'
      ∧ lookupA store' ".last-sync" = some (R2Value.txt benignEnv.timestamp) :=
  marker_written_after_attempt goodFS benignEnv [] (by decide) rfl

/-- C5: the sanity check aborts the whole backup with the descriptive
failure, before any store write, exactly when a truthy marker exists, the
check process did not throw and the critical file is missing; the check is
skipped when no marker exists; and a throwing check degrades to a warning,
the backup proceeding normally. -/
theorem sanity_check_policy (fs : FS) (env : R2Env) (store : Store) :
    (jsTruthy (getLastSyncDirect (some store)) = true → env.checkFails = false →
       lookupA fs "/root/.clawdbot/clawdbot.json" = none →
       syncToR2Direct fs env (some store)
         = ({ success := false, error := some "Sync aborted: source missing clawdbot.json",
              details := some "The local config directory is missing critical files." },
            some store))
    ∧ (getLastSyncDirect (some store) = none →
         syncToR2Direct fs env (some store)
           = ((syncMain fs env store).1, some (syncMain fs env store).2))
    ∧ (env.checkFails = true →
         syncToR2Direct fs env (some store)
           = ((syncMain fs env store).1, some (syncMain fs env store).2)) := by
  have h0 : syncToR2Direct fs env (some store)
      = (if sanityAborts fs env store = true then
          ({ success := false, error := some "Sync aborted: source missing clawdbot.json",
             details := some "The local config directory is missing critical files." },
           some store)
         else ((syncMain fs env store).1, some (syncMain fs env store).2)) := rfl
  refine ⟨?_, ?_, ?_⟩
  · intro ht hc hl
    have hab : sanityAborts fs env store = true := by
      unfold sanityAborts
      rw [ht, hc, hl]
      rfl
    rw [h0, hab]
    simp
  · intro h
    apply syncToR2Direct_not_abort
    unfold sanityAborts
    rw [h]
    rfl
  · intro h
    apply syncToR2Direct_not_abort
    unfold sanityAborts
    rw [h]
    simp

/-- Witness for C5: with a marker present, a healthy check process and the
critical file missing, the concrete backup call aborts with the
descriptive failure and an unchanged store; with no marker, the same
missing file does not block the backup. -/
theorem sanity_check_policy_witness :
    (syncToR2Direct [] benignEnv (some markerStore)
       = ({ success := false, error := some "Sync aborted: source missing clawdbot.json",
            details := some "The local config directory is missing critical files." },
          some markerStore))
    ∧ (syncToR2Direct [] benignEnv (some [])
       = ((syncMain [] benignEnv []).1, some (syncMain [] benignEnv []).2)) :=
  ⟨(sanity_check_policy [] benignEnv markerStore).1 (by decide) rfl rfl,
   (sanity_check_policy [] benignEnv []).2.1 rfl⟩


/-- C4: once past the configuration and sanity checks, the backup result
has success = true exactly when at least one file transferred or there
were no eligible files at all (vacuous success, which also covers roots
whose listing failed), and every attempted file contributes exactly one
outcome — a transfer or a recorded error — so one file's failure never
stops the remaining files. -/
theorem backup_result_policy (fs : FS) (env : R2Env) (store : Store)
    (hab : sanityAborts fs env store = false) :
    ((syncToR2Direct fs env (some store)).1.success = true
        ↔ 0 < (syncCore fs env store).filesBackedUp ∨ attemptedFiles fs env = [])
    ∧ (syncCore fs env store).filesBackedUp + (syncCore fs env store).errors.length
        = (attemptedFiles fs env).length := by
  have hcount := syncCore_count fs env store
  refine ⟨?_, hcount⟩
  rw [syncToR2Direct_not_abort fs env store hab]
  show (syncMain fs env store).1.success = true ↔ _
  rw [syncMain_success_iff]
  constructor
  · intro h
    by_cases hn : (syncCore fs env store).filesBackedUp = 0
    · right
      have herr : (syncCore fs env store).errors = [] := by
        by_contra hh
        exact h ⟨hn, hh⟩
      rw [hn, herr] at hcount
      simp only [List.length_nil, Nat.zero_add] at hcount
      exact List.length_eq_zero.mp hcount.symm
    · left
      omega
  · intro h hcontra
    rcases h with h | h
    · omega
    · rw [h] at hcount
      simp only [List.length_nil] at hcount
      have herr : (syncCore fs env store).errors = [] :=
        List.length_eq_zero.mp (by omega)
      exact hcontra.2 herr

/-- Witness for C4: a concrete backup in which one of two files fails to
upload still succeeds, and the transfer/error counts add up to the
attempted-file count. -/
theorem backup_result_policy_witness :
    (syncToR2Direct twoFileFS putFailEnv (some [])).1.success = true
    ∧ (syncCore twoFileFS putFailEnv []).filesBackedUp
        + (syncCore twoFileFS putFailEnv []).errors.length
        = (attemptedFiles twoFileFS putFailEnv).length :=
  ⟨(backup_result_policy twoFileFS putFailEnv [] (by decide)).1.mpr (Or.inl (by decide)),
   (backup_result_policy twoFileFS putFailEnv [] (by decide)).2⟩

/-- C9: when the store listing does not throw, restore returns a
structured result whose success flag is true exactly when at least one
object was restored; the freshness-marker object and every
unknown-prefix object are invisible to the loop (filtering them out of
the store changes nothing); and every remaining object contributes
exactly one outcome — a restored file or a recorded error — so one
object's failure never stops the remaining restores. -/
theorem restore_contract (fs : FS) (env : R2Env) (store : Store)
    (h : env.listThrows = none) :
    (∃ res fs', restoreFromR2Direct fs env (some store) = .ok (res, fs')
       ∧ (res.success = true ↔ 0 < (restoreCore fs env store).filesRestored)
       ∧ res.filesBackedUp = some (restoreCore fs env store).filesRestored
       ∧ fs' = (restoreCore fs env store).fs)
    ∧ restoreCore fs env (store.filter (fun kv => keepF kv.1)) = restoreCore fs env store
    ∧ (restoreCore fs env store).filesRestored + (restoreCore fs env store).errors.length
        = (store.filter (fun kv => keepF kv.1)).length := by
  refine ⟨?_, restoreCore_filter fs env store, restoreCore_count fs env store⟩
  unfold restoreFromR2Direct
  rw [h]
  refine ⟨_, _, rfl, ?_, rfl, rfl⟩
  simp

/-- Witness for C9: a concrete store holding the marker, an unrelated key,
one restorable object and one whose container write fails. -/
theorem restore_contract_witness :
    ((restoreCore [] writeFailEnv restoreStore).filesRestored
        + (restoreCore [] writeFailEnv restoreStore).errors.length
      = (restoreStore.filter (fun kv => keepF kv.1)).length)
    ∧ restoreCore [] writeFailEnv (restoreStore.filter (fun kv => keepF kv.1))
        = restoreCore [] writeFailEnv restoreStore :=
  ⟨(restore_contract [] writeFailEnv restoreStore rfl).2.2,
   (restore_contract [] writeFailEnv restoreStore rfl).2.1⟩

/-- C10: a zero-byte file is reported by the container read exactly like a
missing file (File not found); if such a file is among the attempted
files, the backup records an error entry for it; and, provided no other
attempted file collides with its object key, the store is left untouched
at that key — so zero-byte files are never uploaded. -/
theorem empty_file_policy (fs : FS) (env : R2Env) (store : Store) (p : String)
    (h : lookupA fs p = some []) :
    readFileFromContainer fs p = ⟨[], some "File not found"⟩
    ∧ (∀ fs' : FS, lookupA fs' p = none →
         readFileFromContainer fs p = readFileFromContainer fs' p)
    ∧ (p ∈ attemptedFiles fs env →
         (p ++ ": " ++ "File not found") ∈ (syncCore fs env store).errors)
    ∧ ((∀ q, q ∈ attemptedFiles fs env → q ≠ p → r2KeyOf q ≠ r2KeyOf p) →
         lookupA (syncCore fs env store).store (r2KeyOf p) = lookupA store (r2KeyOf p)) := by
  have hread : readFileFromContainer fs p = ⟨[], some "File not found"⟩ := by
    unfold readFileFromContainer
    rw [h]
    simp
  refine ⟨hread, ?_, ?_, ?_⟩
  · intro fs' h'
    rw [hread]
    unfold readFileFromContainer
    rw [h']
  · intro hp
    exact syncCore_error_added fs env store p hp (by rw [hread])
  · intro hcoll
    apply syncCore_storeK
    intro q hq
    by_cases hqp : q = p
    · subst hqp
      left
      rw [hread]
      rfl
    · exact Or.inr (hcoll q hq hqp)

/-- Witness for C10 at a concrete filesystem holding one empty file. -/
theorem empty_file_policy_witness :
    readFileFromContainer emptyFileFS "/root/.clawdbot/a.json" = ⟨[], some "File not found"⟩
    ∧ ("/root/.clawdbot/a.json" ++ ": " ++ "File not found")
        ∈ (syncCore emptyFileFS benignEnv []).errors :=
  ⟨(empty_file_policy emptyFileFS benignEnv [] "/root/.clawdbot/a.json" (by decide)).1,
   (empty_file_policy emptyFileFS benignEnv [] "/root/.clawdbot/a.json" (by decide)).2.2.1
     (by decide)⟩

/-- C8 counterexample: restore applies no exclusion filter — a store
object whose key ends in the `.lock` exclusion suffix is written to the
destination filesystem. -/
theorem restore_excluded_counterexample :
    strEndsWith "clawdbot/x.lock" ".lock" = true
    ∧ restoreFromR2Direct [] benignEnv (some lockStore)
        = .ok ({ success := true, filesBackedUp := some 1 },
               [("/root/.clawdbot/x.lock", [1, 2])]) := by decide

/-- C8 (amended): backup never uploads an excluded file — any key present
in the post-backup store was already present, is the freshness marker, or
is the image of a non-excluded attempted file.  Restore, however, applies
no exclusion filter, so an excluded-suffix key already present in the
store is restored (see the counterexample); such keys simply never arise
from a backup into an empty store. -/
theorem backup_excluded_invisible (fs : FS) (env : R2Env) (store : Store)
    (k : String) (v : R2Value)
    (h : lookupA ((syncToR2Direct fs env (some store)).2.getD []) k = some v) :
    lookupA store k = some v ∨ k = ".last-sync"
      ∨ ∃ p, p ∈ attemptedFiles fs env ∧ isExcluded p = false ∧ r2KeyOf p = k := by
  by_cases hab : sanityAborts fs env store
  · have h0 : syncToR2Direct fs env (some store)
        = ({ success := false, error := some "Sync aborted: source missing clawdbot.json",
             details := some "The local config directory is missing critical files." },
           some store) := by
      have h1 : syncToR2Direct fs env (some store)
          = (if sanityAborts fs env store = true then
              ({ success := false, error := some "Sync aborted: source missing clawdbot.json",
                 details := some "The local config directory is missing critical files." },
               some store)
             else ((syncMain fs env store).1, some (syncMain fs env store).2)) := rfl
      rw [h1, hab]
      simp
    rw [h0] at h
    exact Or.inl h
  · rw [syncToR2Direct_not_abort fs env store (Bool.eq_false_iff.mpr hab)] at h
    have h2 : lookupA (syncMain fs env store).2 k = some v := h
    rw [syncMain_snd] at h2
    by_cases hput : env.putFails ".last-sync" = true
    · rw [if_pos hput] at h2
      rcases syncCore_store fs env store k v h2 with h3 | ⟨p, hp, hpk⟩
      · exact Or.inl h3
      · exact Or.inr (Or.inr ⟨p, hp, attemptedFiles_not_excluded fs env p hp, hpk⟩)
    · rw [if_neg hput] at h2
      by_cases hk : k = ".last-sync"
      · exact Or.inr (Or.inl hk)
      · rw [lookupA_setA_ne _ _ _ _ hk] at h2
        rcases syncCore_store fs env store k v h2 with h3 | ⟨p, hp, hpk⟩
        · exact Or.inl h3
        · exact Or.inr (Or.inr ⟨p, hp, attemptedFiles_not_excluded fs env p hp, hpk⟩)

/-- Witness for C8 (amended): after backing up a filesystem holding only a
lock file, the only key in the store is the freshness marker. -/
theorem backup_excluded_invisible_witness :
    lookupA [] ".last-sync" = some (R2Value.txt "2026-02-06T12:00:00.000Z")
      ∨ ".last-sync" = ".last-sync"
      ∨ ∃ p, p ∈ attemptedFiles lockFS benignEnv ∧ isExcluded p = false
          ∧ r2KeyOf p = ".last-sync" :=
  backup_excluded_invisible lockFS benignEnv [] ".last-sync"
    (R2Value.txt "2026-02-06T12:00:00.000Z") (by decide)

/-- C7 counterexample: the backup key mapping is not injective — two
distinct non-excluded paths under the skills root map to the same object
key (JS `String.replace` replaces the first occurrence anywhere, not only the leading
prefix), and inverting the prefix mapping on that key returns the wrong
path for the first of them. -/
theorem key_mapping_counterexample :
    r2KeyOf "/root/clawd/skills/a/root/.clawdbot/x"
        = r2KeyOf "/root/clawd/skills/aclawdbot/x"
    ∧ ("/root/clawd/skills/a/root/.clawdbot/x" : String) ≠ "/root/clawd/skills/aclawdbot/x"
    ∧ strStartsWith "/root/clawd/skills/a/root/.clawdbot/x" "/root/clawd/skills/" = true
    ∧ strStartsWith "/root/clawd/skills/aclawdbot/x" "/root/clawd/skills/" = true
    ∧ isExcluded "/root/clawd/skills/a/root/.clawdbot/x" = false
    ∧ isExcluded "/root/clawd/skills/aclawdbot/x" = false
    ∧ containerPathOf (r2KeyOf "/root/clawd/skills/a/root/.clawdbot/x")
        = some "/root/clawd/skills/aclawdbot/x" := by decide

/-- C7 (amended): restricted to well-behaved paths — paths under a backup
root whose remainder does not contain the other root's pattern — the key
mapping is injective and the restore prefix mapping is its inverse. -/
theorem key_mapping_bijective (p q : String) (hp : goodPathB p = true)
    (hq : goodPathB q = true) :
    containerPathOf (r2KeyOf p) = some p ∧ (r2KeyOf p = r2KeyOf q → p = q) :=
  ⟨containerPathOf_r2KeyOf p hp, fun h => r2KeyOf_inj p q hp hq h⟩

/-- Witness for C7 (amended) at a concrete well-behaved path. -/
theorem key_mapping_bijective_witness :
    containerPathOf (r2KeyOf "/root/.clawdbot/clawdbot.json")
      = some "/root/.clawdbot/clawdbot.json" :=
  (key_mapping_bijective "/root/.clawdbot/clawdbot.json" "/root/.clawdbot/clawdbot.json"
    (by decide) (by decide)).1


/-- C1 counterexample: a zero-byte file under a backup root is an element
of the file set yet is not recreated by backup-then-restore into an empty
destination — the container read reports its empty output as File-not-
found, nothing is uploaded, and the restored filesystem is empty. -/
theorem roundtrip_counterexample :
    lookupA emptyFileFS "/root/.clawdbot/a.json" = some []
    ∧ isExcluded "/root/.clawdbot/a.json" = false
    ∧ restoreFromR2Direct [] benignEnv (syncToR2Direct emptyFileFS benignEnv (some [])).2
        = .ok ({ success := false, filesBackedUp := some 0 }, []) := by decide


/-- C1 (amended): for every duplicate-free set of nonempty, non-excluded
files at well-behaved paths under the backup roots, backup into an empty
store followed by restore into an empty destination recreates exactly the
original files, byte for byte, at their original paths. -/
theorem roundtrip_good (F : FS) (env : R2Env) (henv : benign env)
    (hnd : (F.map Prod.fst).Nodup)
    (hgood : ∀ pd ∈ F, goodPathB pd.1 = true ∧ pd.2 ≠ [] ∧ isExcluded pd.1 = false) :
    ∃ res store' res' fs',
      syncToR2Direct F env (some []) = (res, some store')
      ∧ restoreFromR2Direct [] env (some store') = .ok (res', fs')
      ∧ ∀ q, lookupA fs' q = lookupA F q := by
  obtain ⟨hput, hlist, hthrow, hwrite⟩ := henv
  have hpathgood : ∀ p ∈ F.map Prod.fst, goodPathB p = true := by
    intro p hp
    obtain ⟨pd, hpd, rfl⟩ := List.mem_map.mp hp
    exact (hgood pd hpd).1
  have hdata : ∀ p ∈ F.map Prod.fst,
      ∃ d, lookupA F p = some d ∧ d ≠ [] ∧ isExcluded p = false := by
    intro p hp
    obtain ⟨pd, hpd, rfl⟩ := List.mem_map.mp hp
    exact ⟨pd.2, lookupA_of_mem_nodup F pd.1 pd.2 hnd hpd,
      (hgood pd hpd).2.1, (hgood pd hpd).2.2⟩
  have hLsub : ∀ p ∈ listFilesInContainer F "/root/.clawdbot/"
        ++ listFilesInContainer F "/root/clawd/skills/", p ∈ F.map Prod.fst := by
    intro p hp
    rcases List.mem_append.mp hp with h | h
    · exact (List.mem_filter.mp h).1
    · exact (List.mem_filter.mp h).1
  have hLnodup : (listFilesInContainer F "/root/.clawdbot/"
      ++ listFilesInContainer F "/root/clawd/skills/").Nodup := by
    apply List.Nodup.append (hnd.filter _) (hnd.filter _)
    intro p hp1 hp2
    exact not_both_roots p (List.mem_filter.mp hp1).2 (List.mem_filter.mp hp2).2
  have hLgood : ∀ p ∈ listFilesInContainer F "/root/.clawdbot/"
      ++ listFilesInContainer F "/root/clawd/skills/", goodPathB p = true :=
    fun p hp => hpathgood p (hLsub p hp)
  have hkeyinj : (listFilesInContainer F "/root/.clawdbot/"
      ++ listFilesInContainer F "/root/clawd/skills/").Pairwise
      (fun p q => r2KeyOf p ≠ r2KeyOf q) := by
    refine List.Pairwise.imp_of_mem ?_ hLnodup
    intro p q hp hq hne hk
    exact hne (r2KeyOf_inj p q (hLgood p hp) (hLgood q hq) hk)
  have hall : ∀ p ∈ listFilesInContainer F "/root/.clawdbot/"
      ++ listFilesInContainer F "/root/clawd/skills/",
      ∃ d, lookupA F p = some d ∧ d ≠ [] ∧ isExcluded p = false
        ∧ env.putFails (r2KeyOf p) = false := by
    intro p hp
    obtain ⟨d, h1, h2, h3⟩ := hdata p (hLsub p hp)
    exact ⟨d, h1, h2, h3, hput _⟩
  -- characterize the store built by the backup loop
  have hsc : syncCore F env []
      = ⟨(listFilesInContainer F "/root/.clawdbot/"
            ++ listFilesInContainer F "/root/clawd/skills/").length, [],
         (listFilesInContainer F "/root/.clawdbot/"
            ++ listFilesInContainer F "/root/clawd/skills/").map
           (fun p => (r2KeyOf p, R2Value.bin ((lookupA F p).getD [])))⟩ := by
    unfold syncCore BACKUP_PATHS
    simp only [List.foldl_cons, List.foldl_nil]
    unfold syncRootStep
    rw [hlist "/root/.clawdbot/", hlist "/root/clawd/skills/"]
    simp only [Bool.false_eq_true, if_false]
    rw [foldl_syncFileStep_good F env (listFilesInContainer F "/root/.clawdbot/") ⟨0, [], []⟩
      (fun p hp => hall p (List.mem_append_left _ hp))
      (by intro p hp; simp)
      (List.Pairwise.sublist (List.sublist_append_left _ _) hkeyinj)]
    rw [foldl_syncFileStep_good F env (listFilesInContainer F "/root/clawd/skills/") _
      (fun p hp => hall p (List.mem_append_right _ hp))
      (by
        intro p hp
        simp only [List.nil_append, List.map_map, List.mem_map]
        rintro ⟨p', hp', hkey⟩
        have hkey' : r2KeyOf p' = r2KeyOf p := hkey
        have : p' = p := r2KeyOf_inj p' p
          (hLgood p' (List.mem_append_left _ hp')) (hLgood p (List.mem_append_right _ hp)) hkey'
        subst this
        exact not_both_roots p' (List.mem_filter.mp hp').2 (List.mem_filter.mp hp).2)
      (List.Pairwise.sublist (List.sublist_append_right _ _) hkeyinj)]
    simp [List.map_append]
  have hmarker_notin : ".last-sync" ∉ ((listFilesInContainer F "/root/.clawdbot/"
      ++ listFilesInContainer F "/root/clawd/skills/").map
        (fun p => (r2KeyOf p, R2Value.bin ((lookupA F p).getD [])))).map Prod.fst := by
    intro hmem
    rw [List.map_map] at hmem
    obtain ⟨p, hp, hkey⟩ := List.mem_map.mp hmem
    exact r2KeyOf_ne_marker p (hLgood p hp) hkey
  have hstore' : (syncMain F env []).2
      = (listFilesInContainer F "/root/.clawdbot/"
            ++ listFilesInContainer F "/root/clawd/skills/").map
          (fun p => (r2KeyOf p, R2Value.bin ((lookupA F p).getD [])))
        ++ [(".last-sync", R2Value.txt env.timestamp)] := by
    rw [syncMain_snd, hput ".last-sync"]
    simp only [Bool.false_eq_true, if_false]
    rw [hsc]
    exact setA_eq_append _ _ _ hmarker_notin
  have hsync : syncToR2Direct F env (some [])
      = ((syncMain F env []).1,
         some ((listFilesInContainer F "/root/.clawdbot/"
              ++ listFilesInContainer F "/root/clawd/skills/").map
            (fun p => (r2KeyOf p, R2Value.bin ((lookupA F p).getD [])))
          ++ [(".last-sync", R2Value.txt env.timestamp)])) := by
    rw [syncToR2Direct_not_abort F env [] rfl, hstore']
  -- the restore side
  have hmapnodup : (((listFilesInContainer F "/root/.clawdbot/"
      ++ listFilesInContainer F "/root/clawd/skills/").map
        (fun p => (r2KeyOf p, R2Value.bin ((lookupA F p).getD [])))).map Prod.fst).Nodup := by
    rw [List.map_map]
    refine List.Nodup.map_on ?_ hLnodup
    intro x hx y hy hxy
    exact r2KeyOf_inj x y (hLgood x hx) (hLgood y hy) hxy
  have hlook : ∀ kv ∈ (listFilesInContainer F "/root/.clawdbot/"
      ++ listFilesInContainer F "/root/clawd/skills/").map
        (fun p => (r2KeyOf p, R2Value.bin ((lookupA F p).getD []))),
      lookupA ((listFilesInContainer F "/root/.clawdbot/"
            ++ listFilesInContainer F "/root/clawd/skills/").map
          (fun p => (r2KeyOf p, R2Value.bin ((lookupA F p).getD [])))
        ++ [(".last-sync", R2Value.txt env.timestamp)]) kv.1 = some kv.2 := by
    intro kv hkv
    exact lookupA_append_of_some _ _ _ _
      (lookupA_of_mem_nodup _ kv.1 kv.2 hmapnodup hkv)
  have hrc : restoreCore [] env
      ((listFilesInContainer F "/root/.clawdbot/"
            ++ listFilesInContainer F "/root/clawd/skills/").map
          (fun p => (r2KeyOf p, R2Value.bin ((lookupA F p).getD [])))
        ++ [(".last-sync", R2Value.txt env.timestamp)])
      = ⟨(listFilesInContainer F "/root/.clawdbot/"
            ++ listFilesInContainer F "/root/clawd/skills/").length, [],
         (listFilesInContainer F "/root/.clawdbot/"
            ++ listFilesInContainer F "/root/clawd/skills/").map
           (fun p => (p, (lookupA F p).getD []))⟩ := by
    unfold restoreCore
    rw [List.foldl_append]
    have hskip : ∀ (acc : RestoreAcc) (S : Store),
        restoreObjStep env S acc (".last-sync", R2Value.txt env.timestamp) = acc := by
      intro acc S
      unfold restoreObjStep
      simp
    rw [restore_fold_good env _ _ ⟨0, [], []⟩ (fun k => (containerPathOf k).getD "")
      (by
        intro kv hkv
        obtain ⟨p, hp, rfl⟩ := List.mem_map.mp hkv
        dsimp only
        have hcp := containerPathOf_r2KeyOf p (hLgood p hp)
        have hg : (containerPathOf (r2KeyOf p)).getD "" = p := by rw [hcp]; rfl
        refine ⟨r2KeyOf_ne_marker p (hLgood p hp), by rw [hg]; exact hcp, ?_, ?_, by simp⟩
        · exact hlook _ (List.mem_map.mpr ⟨p, hp, rfl⟩)
        · rw [hg]; exact hwrite p)
      (by
        rw [List.pairwise_map]
        refine List.Pairwise.imp_of_mem ?_ hLnodup
        intro p q hp hq hne hgeq
        apply hne
        dsimp only at hgeq
        have hgp : (containerPathOf (r2KeyOf p)).getD "" = p := by
          rw [containerPathOf_r2KeyOf p (hLgood p hp)]; rfl
        have hgq : (containerPathOf (r2KeyOf q)).getD "" = q := by
          rw [containerPathOf_r2KeyOf q (hLgood q hq)]; rfl
        rw [hgp, hgq] at hgeq
        exact hgeq)]
    simp only [List.foldl_cons, List.foldl_nil]
    rw [hskip]
    simp only [RestoreAcc.mk.injEq, List.length_map, Nat.zero_add, List.nil_append,
      List.map_map]
    refine ⟨trivial, trivial, ?_⟩
    apply List.map_congr_left
    intro p hp
    have hgp : (containerPathOf (r2KeyOf p)).getD "" = p := by
      rw [containerPathOf_r2KeyOf p (hLgood p hp)]; rfl
    simp [Function.comp, hgp, R2Value.toBytes]
  obtain ⟨res', hre⟩ : ∃ res', restoreFromR2Direct [] env
      (some ((listFilesInContainer F "/root/.clawdbot/"
            ++ listFilesInContainer F "/root/clawd/skills/").map
          (fun p => (r2KeyOf p, R2Value.bin ((lookupA F p).getD [])))
        ++ [(".last-sync", R2Value.txt env.timestamp)]))
      = .ok (res', (restoreCore [] env
          ((listFilesInContainer F "/root/.clawdbot/"
                ++ listFilesInContainer F "/root/clawd/skills/").map
              (fun p => (r2KeyOf p, R2Value.bin ((lookupA F p).getD [])))
            ++ [(".last-sync", R2Value.txt env.timestamp)])).fs) := by
    unfold restoreFromR2Direct
    rw [hthrow]
    exact ⟨_, rfl⟩
  refine ⟨_, _, res', _, hsync, hre, ?_⟩
  intro q
  rw [hrc]

  show lookupA ((listFilesInContainer F "/root/.clawdbot/"
      ++ listFilesInContainer F "/root/clawd/skills/").map
        (fun p => (p, (lookupA F p).getD []))) q = lookupA F q
  rw [lookupA_graph _ (fun p => (lookupA F p).getD []) q]
  by_cases hq : q ∈ listFilesInContainer F "/root/.clawdbot/"
      ++ listFilesInContainer F "/root/clawd/skills/"
  · rw [if_pos hq]
    obtain ⟨d, hd, _, _⟩ := hdata q (hLsub q hq)
    rw [hd]
    rfl
  · rw [if_neg hq]
    have hq2 : q ∉ F.map Prod.fst := by
      intro hmem
      apply hq
      rcases goodPathB_starts q (hpathgood q hmem) with h | h
      · exact List.mem_append_left _ (List.mem_filter.mpr ⟨hmem, h⟩)
      · exact List.mem_append_right _ (List.mem_filter.mpr ⟨hmem, h⟩)
    rw [lookupA_eq_none F q hq2]


/-- Witness for C1 (amended) at a concrete two-file set, one file under
each backup root. -/
theorem roundtrip_good_witness :
    ∃ res store' res' fs',
      syncToR2Direct goodFS benignEnv (some []) = (res, some store')
      ∧ restoreFromR2Direct [] benignEnv (some store') = .ok (res', fs')
      ∧ ∀ q, lookupA fs' q = lookupA goodFS q :=
  roundtrip_good goodFS benignEnv
    ⟨fun _ => rfl, fun _ => rfl, rfl, fun _ => rfl⟩ (by decide) (by decide)

end MoltbotSync
